import Mathlib

/-!
Shallow embedding of the chazz host-accelerator communication layer
(the f1_helper host wrappers and the example device kernel), together
with theorems settling the specification claims.

Machine integers are modelled as `Nat` (the C code uses `uint32_t` for
addresses and data words) and `Int` where the C source uses signed `int`;
overflow is made explicit with `% 2 ^ 32` where it matters.  The
black-box transport primitives (`hb_mc_copy_to_epa`,
`hb_mc_copy_from_epa`, `hb_mc_read_fifo`, freeze/unfreeze/load) are
represented by the traces of the calls the host wrappers issue, and by
an oracle list of response packets for reads.
-/

/-- Direction of a transfer, from `f1_helper.h`. -/
inductive transfer_type where
  | deviceToHost
  | hostToDevice
deriving DecidableEq, Repr

/-- The fields of a manycore response packet that the host wrappers
inspect: `hb_mc_response_packet_get_data`. -/
structure hb_mc_response_packet where
  data : Nat
deriving DecidableEq, Repr

/-- The fields of a manycore request packet that matter to the
completion synchronizer: the source coordinate of the finish packet. -/
structure hb_mc_request_packet where
  x_src : Nat
  y_src : Nat
deriving DecidableEq, Repr

/-- Observable outcome of one `hammaMemcpy` call: the read call issued
to `hb_mc_copy_from_epa` (destination x, y, word address, word count),
the write call issued to `hb_mc_copy_to_epa` (destination x, y, word
address, staged data words), and the final contents of the user buffer. -/
structure MemcpyTrace where
  readCall : Option (Nat × Nat × Nat × Nat)
  writeCall : Option (Nat × Nat × Nat × List Nat)
  hostBuf : List Nat
deriving DecidableEq, Repr

/-- The coordinate at which the transfer was issued, taken from
whichever transport call the trace records. -/
def MemcpyTrace.targetXY (m : MemcpyTrace) : Option (Nat × Nat) :=
  match m.readCall, m.writeCall with
  | some (x, y, _, _), _ => some (x, y)
  | none, some (x, y, _, _) => some (x, y)
  | none, none => none

/-- Embedding of `hammaMemcpy` from `src/vvadd/host/f1_helper.h` lines
49-107.  `numPackets = numBytes / 4` (C integer division); the word
address handed to the transport is `virtualAddr >> 2`.  For
device-to-host the oracle `responses` stands for the packets
`hb_mc_copy_from_epa` deposited in `buf`, and word `i` of the user
buffer receives the data field of response `i`; for host-to-device the
first `numPackets` words of the user buffer are staged into a fresh
array handed to `hb_mc_copy_to_epa`, and the user buffer is untouched. -/
def hammaMemcpy (x y virtualAddr : Nat) (userPtr : List Nat) (numBytes : Nat)
    (transferType : transfer_type) (responses : List hb_mc_response_packet) :
    MemcpyTrace :=
  let numPackets := numBytes / 4
  match transferType with
  | .deviceToHost =>
      { readCall := some (x, y, virtualAddr >>> 2, numPackets)
        writeCall := none
        hostBuf :=
          (List.range numPackets).map
            (fun i => (responses.getD i ⟨0⟩).data) ++ userPtr.drop numPackets }
  | .hostToDevice =>
      { readCall := none
        writeCall := some (x, y, virtualAddr >>> 2,
          (List.range numPackets).map (fun i => userPtr.getD i 0))
        hostBuf := userPtr }

/-- Modelled from the spec: the symbol resolver `symbol_to_eva` (only
its declaration appears under `src/`, in `bsg_manycore_elf.h`) looks the
name up in the program images symbol table and yields the address at
which the symbol is laid out; it fails (`SymbolNotFound`) when the name
is absent from the table, in which case it does not write through its
out-parameter. -/
def symbol_to_eva (table : List (String × Nat)) (symName : String) : Option Nat :=
  (table.find? (fun p => p.1 == symName)).map (fun p => p.2)

/-- Embedding of `hammaSymbolMemcpy` from `src/vvadd/host/f1_helper.h`
lines 110-118: `eva_t addr = 0;` then `symbol_to_eva` is called with its
return value ignored, and `hammaMemcpy` is issued at whatever `addr`
holds afterwards — on resolution failure that is the initial 0. -/
def hammaSymbolMemcpy_vvadd (x y : Nat) (table : List (String × Nat))
    (symName : String) (userPtr : List Nat) (numBytes : Nat)
    (transferType : transfer_type) (responses : List hb_mc_response_packet) :
    MemcpyTrace :=
  let addr := (symbol_to_eva table symName).getD 0
  hammaMemcpy x y addr userPtr numBytes transferType responses

/-- Modelled from the spec: the driver helper `hb_mc_get_bits` (not
under `src/`) extracts the bit-field of `size` bits starting at bit
`start` of a 32-bit value. -/
def hb_mc_get_bits (v start size : Nat) : Nat :=
  (v >>> start) % 2 ^ size

/-- Embedding of `hb_mc_eva_is_dram` from
`src/example/host/run_manycore_program.c` (cherry-picked helper):
an EVA is a DRAM address exactly when `hb_mc_get_bits(eva, 31, 1)` is 1.
The C function returns `HB_MC_SUCCESS`/`HB_MC_FAIL`; we return the
corresponding Bool. -/
def hb_mc_eva_is_dram (eva : Nat) : Bool :=
  hb_mc_get_bits eva 31 1 == 1

/-- Embedding of `hb_mc_dram_get_x`: the x coordinate of a DRAM address
is `hb_mc_get_bits(eva, 29, 2)`. -/
def hb_mc_dram_get_x (eva : Nat) : Nat :=
  hb_mc_get_bits eva 29 2

/-- Embedding of `hb_mc_dram_get_y`: the y coordinate of a DRAM address
is `hb_mc_get_manycore_dimension_y() + 1`, independent of the address;
the mesh dimension is the parameter `dimY`. -/
def hb_mc_dram_get_y (dimY : Nat) (_eva : Nat) : Nat :=
  dimY + 1

/-- Embedding of `hammaSymbolMemcpy` from the example-host helper
(second half of `src/example/host/run_manycore_program.c`): after
resolution (return value again ignored, `addr` defaulting to 0), the
address is classified with `hb_mc_eva_is_dram`, and if it is a DRAM
address the target coordinate is replaced by
`(hb_mc_dram_get_x addr, hb_mc_dram_get_y addr)` before `hammaMemcpy`. -/
def hammaSymbolMemcpy_example (dimY x y : Nat) (table : List (String × Nat))
    (symName : String) (userPtr : List Nat) (numBytes : Nat)
    (transferType : transfer_type) (responses : List hb_mc_response_packet) :
    MemcpyTrace :=
  let addr := (symbol_to_eva table symName).getD 0
  let x := if hb_mc_eva_is_dram addr then hb_mc_dram_get_x addr else x
  let y := if hb_mc_eva_is_dram addr then hb_mc_dram_get_y dimY addr else y
  hammaMemcpy x y addr userPtr numBytes transferType responses

/-- Error kinds of the host layer, per the spec section 7.  The C code
realises `InvalidTarget` as an `assert(0)` abort. -/
inductive HammaError where
  | SymbolNotFound
  | InvalidTarget
  | TransferFailed
deriving DecidableEq, Repr

/-- Transport calls issued by the tile lifecycle controller. -/
inductive LoadAction where
  | freeze (x y : Nat)
  | setOrigin (x y ox oy : Nat)
  | loadBinary (x y : Nat)
deriving DecidableEq, Repr

/-- The y coordinate a lifecycle action targets. -/
def LoadAction.yCoord : LoadAction → Nat
  | .freeze _ y => y
  | .setOrigin _ y _ _ => y
  | .loadBinary _ y => y

/-- Per-coordinate body of both `hammaLoadMultiple` variants: the
coordinate is truncated to `uint8_t`; if its y is 0 the call aborts
(`assert(0)` after the io-core diagnostic), modelled as
`InvalidTarget`, and no freeze / set-origin / load is issued for it;
otherwise freeze, set-tile-group-origin and load-binary are issued in
that order, then the remaining coordinates are processed. -/
def loadSteps (ox oy : Nat) : List (Nat × Nat) → List LoadAction × Option HammaError
  | [] => ([], none)
  | c :: rest =>
      let x := c.1 % 256
      let y := c.2 % 256
      if y = 0 then ([], some .InvalidTarget)
      else
        let r := loadSteps ox oy rest
        (.freeze x y :: .setOrigin x y ox oy :: .loadBinary x y :: r.1, r.2)

/-- Embedding of the list-based `hammaLoadMultiple` (unnamed host
variant, `src/unnamed/part_001` lines 14-36): the group origin is the
first coordinate of the list, and every coordinate is frozen, assigned
the origin and loaded in list order, aborting at the first io-row
coordinate. -/
def hammaLoadMultiple_list (coords : List (Nat × Nat)) :
    List LoadAction × Option HammaError :=
  let origin := coords.headD (0, 0)
  loadSteps origin.1 origin.2 coords

/-- Row-major enumeration of the rectangle `[x1, x2) × [y1, y2)`, y
outer, matching the nested loops of the rectangular `hammaLoadMultiple`
and of `hammaRunMultiple`. -/
def rectCoords (x1 y1 x2 y2 : Nat) : List (Nat × Nat) :=
  ((List.range (y2 - y1)).map
    (fun j => (List.range (x2 - x1)).map (fun i => (x1 + i, y1 + j)))).flatten

/-- Embedding of the rectangular `hammaLoadMultiple` from
`src/vvadd/host/f1_helper.h` lines 122-138: origin `(x1, y1)`, the
rectangle traversed y-outer / x-inner with the same per-coordinate
body. -/
def hammaLoadMultiple (x1 y1 x2 y2 : Nat) : List LoadAction × Option HammaError :=
  loadSteps x1 y1 (rectCoords x1 y1 x2 y2)

/-- The receive loop of `waitForKernel`: perform exactly `n` blocking
`hb_mc_read_fifo` receives against the incoming packet stream; if the
stream ever runs dry the host blocks forever (`none`).  Returns the
received packets in arrival order together with the rest of the
stream. -/
def readFinishPackets :
    Nat → List hb_mc_request_packet →
    Option (List hb_mc_request_packet × List hb_mc_request_packet)
  | 0, stream => some ([], stream)
  | _ + 1, [] => none
  | n + 1, p :: rest =>
      match readFinishPackets n rest with
      | some (recv, rem) => some (p :: recv, rem)
      | none => none

/-- Embedding of `waitForKernel` from `src/vvadd/host/f1_helper.h`
lines 140-148: a `for (int i = 0; i < numTiles; i++)` loop of blocking
receives, i.e. `max 0 numTiles` receive operations. -/
def waitForKernel (numTiles : Int) (stream : List hb_mc_request_packet) :
    Option (List hb_mc_request_packet × List hb_mc_request_packet) :=
  readFinishPackets numTiles.toNat stream

/-- Unfreeze calls issued by `hammaRunMultiple`. -/
inductive RunAction where
  | unfreeze (x y : Int)
deriving DecidableEq, Repr

/-- Embedding of `hammaRunMultiple` from `src/vvadd/host/f1_helper.h`
lines 150-163: unfreeze every coordinate of the rectangle (y outer, x
inner), then wait for `num_tiles = (x2 - x1) * (y2 - y1)` finish
packets. -/
def hammaRunMultiple (x1 y1 x2 y2 : Int) (stream : List hb_mc_request_packet) :
    List RunAction ×
      Option (List hb_mc_request_packet × List hb_mc_request_packet) :=
  let unfreezes :=
    ((List.range (y2 - y1).toNat).map
      (fun j => (List.range (x2 - x1).toNat).map
        (fun i => RunAction.unfreeze (x1 + i) (y1 + j)))).flatten
  let num_tiles : Int := (x2 - x1) * (y2 - y1)
  (unfreezes, waitForKernel num_tiles stream)

/-- How many of the received finish packets came from tile `(x, y)`. -/
def countFromTile (recv : List hb_mc_request_packet) (x y : Nat) : Nat :=
  recv.countP (fun p => p.x_src == x && p.y_src == y)

/-- Two-sided complement wrap of a mathematical integer into the range
of a 32-bit signed `int`. -/
def int32wrap (z : Int) : Int :=
  (z + 2 ^ 31) % 2 ^ 32 - 2 ^ 31

/-- Embedding of the example device kernel loop,
`src/example/device/main.c` lines 42-44: one run cycle computes
`tileDataWr[i] = tileDataRd[i] + 1` for `i` in `[0, 4)`, with `int`
(32-bit two-sided complement) arithmetic. -/
def deviceMainRun (tileDataRd : List Int) : List Int :=
  (List.range 4).map (fun i => int32wrap (tileDataRd.getD i 0 + 1))

/-! ## Helper lemmas -/

theorem range_map_getD_map {α β : Type} (f : α → β) (l : List α) (d : α) :
    (List.range l.length).map (fun i => f (l.getD i d)) = l.map f := by
  induction l with
  | nil => rfl
  | cons a t ih =>
      simp only [List.length_cons, List.range_succ_eq_map, List.map_cons,
        List.map_map, List.getD_cons_zero, Function.comp]
      exact congrArg (f a :: ·) ih

theorem range_map_getD_take {α : Type} (d : α) :
    ∀ (n : Nat) (l : List α), n ≤ l.length →
      (List.range n).map (fun i => l.getD i d) = l.take n := by
  intro n
  induction n with
  | zero => intro l _; rfl
  | succ m ih =>
      intro l hl
      match l with
      | [] => simp at hl
      | a :: t =>
          have ht : m ≤ t.length := by simpa using hl
          simp only [List.range_succ_eq_map, List.map_cons, List.map_map,
            List.getD_cons_zero, List.take_succ_cons]
          refine congrArg (a :: ·) ?_
          rw [← ih t ht]
          apply List.map_congr_left
          intro i _
          simp [Function.comp, List.getD_cons_succ]

theorem readFinishPackets_spec :
    ∀ (n : Nat) (stream : List hb_mc_request_packet),
      readFinishPackets n stream =
        if n ≤ stream.length then some (stream.take n, stream.drop n) else none := by
  intro n
  induction n with
  | zero => intro stream; simp [readFinishPackets]
  | succ m ih =>
      intro stream
      match stream with
      | [] => simp [readFinishPackets]
      | p :: rest =>
          simp only [readFinishPackets, ih rest, List.length_cons]
          by_cases h : m ≤ rest.length
          · simp [h, Nat.succ_le_succ h]
          · simp [h, fun hc => h (Nat.le_of_succ_le_succ hc)]

theorem loadSteps_no_io_action (ox oy : Nat) (coords : List (Nat × Nat)) :
    ∀ a ∈ (loadSteps ox oy coords).1, a.yCoord ≠ 0 := by
  induction coords with
  | nil => intro a ha; simp [loadSteps] at ha
  | cons c rest ih =>
      intro a ha
      by_cases hy : c.2 % 256 = 0
      · simp [loadSteps, hy] at ha
      · simp only [loadSteps, if_neg hy, List.mem_cons] at ha
        rcases ha with h | h | h | h
        · subst h; exact hy
        · subst h; exact hy
        · subst h; exact hy
        · exact ih a h

theorem loadSteps_err_of_mem (ox oy : Nat) (coords : List (Nat × Nat))
    (hc : ∃ c ∈ coords, c.2 % 256 = 0) :
    (loadSteps ox oy coords).2 = some .InvalidTarget := by
  induction coords with
  | nil => simp at hc
  | cons c rest ih =>
      by_cases hy : c.2 % 256 = 0
      · simp [loadSteps, hy]
      · rcases hc with ⟨d, hd, hdy⟩
        rcases List.mem_cons.mp hd with rfl | hdrest
        · exact absurd hdy hy
        · simp only [loadSteps, if_neg hy]
          exact ih ⟨d, hdrest, hdy⟩

theorem int32wrap_eq_self (z : Int) (h1 : -(2 ^ 31) ≤ z) (h2 : z < 2 ^ 31) :
    int32wrap z = z := by
  unfold int32wrap
  have hlo : (0 : Int) ≤ z + 2 ^ 31 := by omega
  have hhi : z + 2 ^ 31 < 2 ^ 32 := by omega
  rw [Int.emod_eq_of_lt hlo hhi]
  omega

/-! ## Claim theorems -/

/-- C1: the claim that resolution of a name absent from the symbol table
fails with SymbolNotFound surfaced to the caller, never defaults the
address to zero, and issues no transport request, is violated by the
code: `symbol_to_eva` does fail (returns no address), but
`hammaSymbolMemcpy` ignores the failure, keeps the defaulted address 0,
and issues a write request at word address 0 anyway. -/
theorem hammaSymbolMemcpy_unknown_symbol_bug :
    symbol_to_eva [("tileDataRd", 4096)] "nosuch" = none ∧
    (hammaSymbolMemcpy_vvadd 0 1 [("tileDataRd", 4096)] "nosuch" [42] 4
        transfer_type.hostToDevice []).writeCall = some (0, 1, 0, [42]) :=
  ⟨rfl, rfl⟩

/-- C2: `hammaMemcpy` splits a transfer of `numBytes` bytes into
`numBytes / 4` data words, passes the byte address to the transport
shifted right by 2 (i.e. divided by 4, word addressing), and for
device-to-host copies the data word of response `i` into host-buffer
word `i`, in request order. -/
theorem hammaMemcpy_packetization (x y virtualAddr : Nat) (userPtr : List Nat)
    (numBytes : Nat) (responses : List hb_mc_response_packet)
    (hresp : responses.length = numBytes / 4) :
    (hammaMemcpy x y virtualAddr userPtr numBytes
        transfer_type.hostToDevice responses).writeCall =
      some (x, y, virtualAddr / 4,
        (List.range (numBytes / 4)).map (fun i => userPtr.getD i 0)) ∧
    ((List.range (numBytes / 4)).map (fun i => userPtr.getD i 0)).length =
      numBytes / 4 ∧
    (hammaMemcpy x y virtualAddr userPtr numBytes
        transfer_type.deviceToHost responses).readCall =
      some (x, y, virtualAddr / 4, numBytes / 4) ∧
    (hammaMemcpy x y virtualAddr userPtr numBytes
        transfer_type.deviceToHost responses).hostBuf =
      responses.map (fun r => r.data) ++ userPtr.drop (numBytes / 4) := by
  have hshift : virtualAddr >>> 2 = virtualAddr / 4 := by
    rw [Nat.shiftRight_eq_div_pow]
  refine ⟨by simp [hammaMemcpy, hshift], by simp, by simp [hammaMemcpy, hshift], ?_⟩
  show (List.range (numBytes / 4)).map (fun i => (responses.getD i ⟨0⟩).data)
      ++ userPtr.drop (numBytes / 4)
    = responses.map (fun r => r.data) ++ userPtr.drop (numBytes / 4)
  rw [← hresp, range_map_getD_map]

/-- Witness for C2 at a concrete input: reading 8 bytes yields the two
response data words, in order, in the host buffer. -/
theorem hammaMemcpy_packetization_witness :
    (hammaMemcpy 5 6 8 [10, 11] 8 transfer_type.deviceToHost
        [⟨3⟩, ⟨4⟩]).hostBuf = [3, 4] := by
  have h := hammaMemcpy_packetization 5 6 8 [10, 11] 8 [⟨3⟩, ⟨4⟩] rfl
  simpa using h.2.2.2

/-- C3: for every 32-bit address, bit 31 set is exactly what makes the
classifier report a DRAM (shared-bank) address; the bank x coordinate
is the bit-field at bits 29-30, and the bank y coordinate is the fixed
row one beyond the compute mesh, independent of the address. -/
theorem eva_classifier (eva dimY : Nat) (h : eva < 2 ^ 32) :
    (hb_mc_eva_is_dram eva = true ↔ 2 ^ 31 ≤ eva) ∧
    hb_mc_dram_get_x eva = eva / 2 ^ 29 % 4 ∧
    hb_mc_dram_get_y dimY eva = dimY + 1 := by
  refine ⟨?_, ?_, rfl⟩
  · simp only [hb_mc_eva_is_dram, hb_mc_get_bits, Nat.shiftRight_eq_div_pow,
      beq_iff_eq, pow_one]
    constructor
    · intro h1
      by_contra hlt
      push_neg at hlt
      rw [Nat.div_eq_of_lt hlt] at h1
      simp at h1
    · intro hge
      have h2 : eva / 2 ^ 31 < 2 := by
        apply Nat.div_lt_of_lt_mul
        calc eva < 2 ^ 32 := h
          _ = 2 ^ 31 * 2 := by norm_num
      have h3 : 1 ≤ eva / 2 ^ 31 := (Nat.one_le_div_iff (by norm_num)).mpr hge
      rw [Nat.mod_eq_of_lt h2]
      omega
  · simp [hb_mc_dram_get_x, hb_mc_get_bits, Nat.shiftRight_eq_div_pow]

/-- Witness for C3 at a concrete DRAM address. -/
theorem eva_classifier_witness :
    hb_mc_eva_is_dram 0xA0001234 = true ∧
    hb_mc_dram_get_x 0xA0001234 = 1 ∧
    hb_mc_dram_get_y 4 0xA0001234 = 5 := by
  have h := eva_classifier 0xA0001234 4 (by norm_num)
  refine ⟨h.1.mpr (by norm_num), ?_, h.2.2⟩
  rw [h.2.1]
  norm_num

/-- C4 counterexample: the vvadd host variant of `hammaSymbolMemcpy`
does not classify the resolved address: for a symbol resolving to the
shared-bank address 0xA0000000 it issues the transfer at the
caller-supplied coordinate (3, 2), which differs from the bank
coordinate derived from the address. -/
theorem hammaSymbolMemcpy_vvadd_dram_counterexample :
    hb_mc_eva_is_dram 0xA0000000 = true ∧
    (hammaSymbolMemcpy_vvadd 3 2 [("g_data", 0xA0000000)] "g_data" [7] 4
        transfer_type.hostToDevice []).targetXY = some (3, 2) ∧
    (hb_mc_dram_get_x 0xA0000000, hb_mc_dram_get_y 4 0xA0000000) ≠ (3, 2) := by
  refine ⟨by decide, rfl, by decide⟩

/-- C4 amended: the example-host variant of `hammaSymbolMemcpy`
classifies the resolved address before the transfer and, for a
shared-bank address, replaces the target coordinate by the bank
coordinate derived from the address; the vvadd variant always issues
the transfer at the caller-supplied coordinate. -/
theorem symbolMemcpy_classification (dimY x y : Nat) (table : List (String × Nat))
    (symName : String) (userPtr : List Nat) (numBytes : Nat)
    (tt : transfer_type) (responses : List hb_mc_response_packet) :
    (hammaSymbolMemcpy_example dimY x y table symName userPtr numBytes
        tt responses).targetXY =
      some (if hb_mc_eva_is_dram ((symbol_to_eva table symName).getD 0)
        then (hb_mc_dram_get_x ((symbol_to_eva table symName).getD 0),
              hb_mc_dram_get_y dimY ((symbol_to_eva table symName).getD 0))
        else (x, y)) ∧
    (hammaSymbolMemcpy_vvadd x y table symName userPtr numBytes
        tt responses).targetXY = some (x, y) := by
  constructor
  · cases tt <;>
      cases hd : hb_mc_eva_is_dram ((symbol_to_eva table symName).getD 0) <;>
        simp [hammaSymbolMemcpy_example, hammaMemcpy, MemcpyTrace.targetXY, hd]
  · cases tt <;> simp [hammaSymbolMemcpy_vvadd, hammaMemcpy, MemcpyTrace.targetXY]

/-- C5: `waitForKernel` performs exactly `numTiles` receive operations:
with at least that many pending finish packets it returns the first
`numTiles` of them (whatever their order) and consumes nothing more,
and with fewer it blocks forever; `hammaRunMultiple` waits for exactly
`(x2 - x1) * (y2 - y1)` finish packets after unfreezing the rectangle. -/
theorem waitForKernel_count (numTiles : Int)
    (stream short : List hb_mc_request_packet) (x1 y1 x2 y2 : Int)
    (h : numTiles.toNat ≤ stream.length) (hs : short.length < numTiles.toNat)
    (h2 : ((x2 - x1) * (y2 - y1)).toNat ≤ stream.length) :
    waitForKernel numTiles stream =
      some (stream.take numTiles.toNat, stream.drop numTiles.toNat) ∧
    waitForKernel numTiles short = none ∧
    (hammaRunMultiple x1 y1 x2 y2 stream).2 =
      some (stream.take ((x2 - x1) * (y2 - y1)).toNat,
        stream.drop ((x2 - x1) * (y2 - y1)).toNat) := by
  refine ⟨?_, ?_, ?_⟩
  · unfold waitForKernel
    rw [readFinishPackets_spec, if_pos h]
  · unfold waitForKernel
    rw [readFinishPackets_spec, if_neg (by omega)]
  · show waitForKernel ((x2 - x1) * (y2 - y1)) stream = _
    unfold waitForKernel
    rw [readFinishPackets_spec, if_pos h2]

/-- Witness for C5: a 2 x 1 tile rectangle waits for exactly 2 finish
packets out of 3 pending ones. -/
theorem waitForKernel_count_witness :
    waitForKernel 2 [⟨0, 1⟩, ⟨1, 1⟩, ⟨9, 9⟩] = some ([⟨0, 1⟩, ⟨1, 1⟩], [⟨9, 9⟩]) ∧
    waitForKernel 2 [⟨0, 1⟩] = none ∧
    (hammaRunMultiple 0 1 2 2 [⟨0, 1⟩, ⟨1, 1⟩, ⟨9, 9⟩]).2 =
      some ([⟨0, 1⟩, ⟨1, 1⟩], [⟨9, 9⟩]) := by
  have h := waitForKernel_count 2 [⟨0, 1⟩, ⟨1, 1⟩, ⟨9, 9⟩] [⟨0, 1⟩] 0 1 2 2
    (by decide) (by decide) (by decide)
  exact ⟨h.1.trans (by decide), h.2.1, h.2.2.trans (by decide)⟩

/-- C6: in both `hammaLoadMultiple` variants a coordinate in the
reserved io row (y = 0) always makes the load fail (`InvalidTarget`,
realised as the abort path in the C code), and no freeze, set-origin or
load-binary action is ever issued for an io-row coordinate; a rectangle
whose first row is row 0 fails before issuing anything at all. -/
theorem loadMultiple_io_row (coords : List (Nat × Nat)) (x1 y1 x2 y2 : Nat)
    (hc : ∃ c ∈ coords, c.2 % 256 = 0)
    (hy : y1 = 0) (hx : x1 < x2) (hyy : y1 < y2) :
    (hammaLoadMultiple_list coords).2 = some HammaError.InvalidTarget ∧
    (∀ a ∈ (hammaLoadMultiple_list coords).1, a.yCoord ≠ 0) ∧
    (∀ a ∈ (hammaLoadMultiple x1 y1 x2 y2).1, a.yCoord ≠ 0) ∧
    hammaLoadMultiple x1 y1 x2 y2 = ([], some HammaError.InvalidTarget) := by
  subst hy
  refine ⟨loadSteps_err_of_mem _ _ coords hc, loadSteps_no_io_action _ _ coords,
    loadSteps_no_io_action _ _ _, ?_⟩
  have hk : y2 - 0 = (y2 - 1) + 1 := by omega
  have hm : x2 - x1 = (x2 - x1 - 1) + 1 := by omega
  unfold hammaLoadMultiple rectCoords
  rw [hk, hm, List.range_succ_eq_map, List.range_succ_eq_map]
  simp only [List.map_cons, List.flatten_cons, List.cons_append, Nat.add_zero]
  simp [loadSteps]

/-- Witness for C6: a list containing the io-row coordinate (3, 0) is
rejected, and so is the rectangle starting at row 0. -/
theorem loadMultiple_io_row_witness :
    (hammaLoadMultiple_list [(1, 2), (3, 0)]).2 = some HammaError.InvalidTarget ∧
    hammaLoadMultiple 0 0 2 2 = ([], some HammaError.InvalidTarget) := by
  have h := loadMultiple_io_row [(1, 2), (3, 0)] 0 0 2 2 (by decide) rfl
    (by decide) (by decide)
  exact ⟨h.1, h.2.2.2⟩

/-- C7 counterexample: with an expected group of two tiles, two finish
packets both coming from tile (0, 1) and none from tile (1, 1) are
accepted: `waitForKernel` returns normally after the two receives, with
no error reported for the per-tile imbalance. -/
theorem waitForKernel_imbalance_counterexample :
    waitForKernel 2 [⟨0, 1⟩, ⟨0, 1⟩] =
      some ([⟨0, 1⟩, ⟨0, 1⟩], ([] : List hb_mc_request_packet)) ∧
    countFromTile [⟨0, 1⟩, ⟨0, 1⟩] 0 1 = 2 ∧
    countFromTile [⟨0, 1⟩, ⟨0, 1⟩] 1 1 = 0 :=
  ⟨rfl, rfl, rfl⟩

/-- C7 amended: the completion synchronizer only counts packets: it
returns after exactly `numTiles` receives whatever the source tiles of
the received packets are, and a per-tile surplus or deficit inside the
wait window is not detected or reported. -/
theorem waitForKernel_source_blind (numTiles : Int)
    (stream : List hb_mc_request_packet) (h : numTiles.toNat ≤ stream.length) :
    waitForKernel numTiles stream =
      some (stream.take numTiles.toNat, stream.drop numTiles.toNat) := by
  unfold waitForKernel
  rw [readFinishPackets_spec, if_pos h]

/-- Witness for the amended C7: two duplicate-source packets satisfy a
wait for two tiles. -/
theorem waitForKernel_source_blind_witness :
    waitForKernel 2 [⟨5, 5⟩, ⟨5, 5⟩, ⟨7, 7⟩] = some ([⟨5, 5⟩, ⟨5, 5⟩], [⟨7, 7⟩]) := by
  have h := waitForKernel_source_blind 2 [⟨5, 5⟩, ⟨5, 5⟩, ⟨7, 7⟩] (by decide)
  exact h.trans (by decide)

/-- C8: one run cycle of the example device kernel computes
`tileDataWr[i] = tileDataRd[i] + 1` for every `i` in `[0, 4)`, provided
the increments stay inside the 32-bit `int` range. -/
theorem deviceMainRun_increments (tileDataRd : List Int)
    (hlen : tileDataRd.length = 4)
    (h : ∀ v ∈ tileDataRd, -(2 ^ 31) ≤ v ∧ v + 1 < 2 ^ 31) :
    deviceMainRun tileDataRd = tileDataRd.map (fun v => v + 1) := by
  match tileDataRd, hlen with
  | [a, b, c, d], _ =>
      have ha := h a (by simp)
      have hb := h b (by simp)
      have hc := h c (by simp)
      have hd := h d (by simp)
      show [int32wrap (a + 1), int32wrap (b + 1), int32wrap (c + 1),
          int32wrap (d + 1)] = [a + 1, b + 1, c + 1, d + 1]
      rw [int32wrap_eq_self (a + 1) (le_trans ha.1 (by linarith)) ha.2,
        int32wrap_eq_self (b + 1) (le_trans hb.1 (by linarith)) hb.2,
        int32wrap_eq_self (c + 1) (le_trans hc.1 (by linarith)) hc.2,
        int32wrap_eq_self (d + 1) (le_trans hd.1 (by linarith)) hd.2]

/-- Witness for C8 at the specified concrete input. -/
theorem deviceMainRun_increments_witness :
    deviceMainRun [234, 1, 25, 101] = [235, 2, 26, 102] := by
  rw [deviceMainRun_increments [234, 1, 25, 101] rfl (by decide)]
  decide

/-- C9: when `numBytes` is not a multiple of 4, `hammaMemcpy` silently
truncates: it behaves exactly as if called with `4 * (numBytes / 4)`
bytes, transfers exactly `numBytes / 4` whole words in either
direction, and for device-to-host leaves every host-buffer word from
index `numBytes / 4` on unchanged. -/
theorem hammaMemcpy_truncation (x y virtualAddr : Nat) (userPtr : List Nat)
    (numBytes : Nat) (tt : transfer_type) (responses : List hb_mc_response_packet) :
    hammaMemcpy x y virtualAddr userPtr numBytes tt responses =
      hammaMemcpy x y virtualAddr userPtr (4 * (numBytes / 4)) tt responses ∧
    (hammaMemcpy x y virtualAddr userPtr numBytes
        transfer_type.hostToDevice responses).writeCall =
      some (x, y, virtualAddr >>> 2,
        (List.range (numBytes / 4)).map (fun i => userPtr.getD i 0)) ∧
    (hammaMemcpy x y virtualAddr userPtr numBytes
        transfer_type.deviceToHost responses).readCall =
      some (x, y, virtualAddr >>> 2, numBytes / 4) ∧
    (hammaMemcpy x y virtualAddr userPtr numBytes
        transfer_type.deviceToHost responses).hostBuf.drop (numBytes / 4) =
      userPtr.drop (numBytes / 4) := by
  have h4 : 4 * (numBytes / 4) / 4 = numBytes / 4 := by omega
  refine ⟨by cases tt <;> simp [hammaMemcpy, h4], rfl, rfl, ?_⟩
  show ((List.range (numBytes / 4)).map (fun i => (responses.getD i ⟨0⟩).data)
      ++ userPtr.drop (numBytes / 4)).drop (numBytes / 4) =
    userPtr.drop (numBytes / 4)
  have hlen : ((List.range (numBytes / 4)).map
      (fun i => (responses.getD i ⟨0⟩).data)).length = numBytes / 4 := by simp
  have hdrop := List.drop_left
    ((List.range (numBytes / 4)).map (fun i => (responses.getD i ⟨0⟩).data))
    (userPtr.drop (numBytes / 4))
  rw [hlen] at hdrop
  exact hdrop

/-- C10: a host-to-device `hammaMemcpy` never modifies the user buffer
(the trace returns it unchanged), and the staged data handed to the
transport is a word-for-word copy of its first `numBytes / 4` words. -/
theorem hammaMemcpy_h2d_frame (x y virtualAddr : Nat) (userPtr : List Nat)
    (numBytes : Nat) (responses : List hb_mc_response_packet)
    (h : numBytes / 4 ≤ userPtr.length) :
    (hammaMemcpy x y virtualAddr userPtr numBytes
        transfer_type.hostToDevice responses).hostBuf = userPtr ∧
    (hammaMemcpy x y virtualAddr userPtr numBytes
        transfer_type.hostToDevice responses).writeCall =
      some (x, y, virtualAddr >>> 2, userPtr.take (numBytes / 4)) := by
  refine ⟨rfl, ?_⟩
  show some (x, y, virtualAddr >>> 2,
      (List.range (numBytes / 4)).map (fun i => userPtr.getD i 0)) = _
  rw [range_map_getD_take 0 (numBytes / 4) userPtr h]

/-- Witness for C10 at a concrete input: the user buffer survives
unchanged and the staged words are its first two words. -/
theorem hammaMemcpy_h2d_frame_witness :
    (hammaMemcpy 1 2 12 [7, 8, 9] 8 transfer_type.hostToDevice []).hostBuf =
      [7, 8, 9] ∧
    (hammaMemcpy 1 2 12 [7, 8, 9] 8 transfer_type.hostToDevice []).writeCall =
      some (1, 2, 3, [7, 8]) := by
  have h := hammaMemcpy_h2d_frame 1 2 12 [7, 8, 9] 8 [] (by decide)
  exact ⟨h.1, h.2.trans (by decide)⟩
